import Mathlib

/-!
Verification of the `UpSAT` upward-planarity-by-SAT component declared in
`src/OGDF/include/ogdf/tree/TreeLayout.h` (class `ogdf::UpSAT`).

Only the class declaration is present in the repository; the member function
bodies are not.  Following the specification, the missing bodies are modelled
here as executable Lean functions: doc comments starting `Modelled from the
spec:` mark every such definition and name the missing code it stands for.
Machine integers (`int numberOfVariables`, `long long numberOfClauses`) are
modelled as `Nat` counters, with their C++ ranges treated separately.
-/

namespace UpSATModel

/-- A literal of the Minisat formula: a variable id together with its
polarity (`pos = true` for the positive literal). -/
structure Lit where
  var : Nat
  pos : Bool
deriving DecidableEq, Repr

/-- A clause is a disjunction of literals. -/
abbrev Clause := List Lit

/-- Positive literal of variable `v`. -/
def posLit (v : Nat) : Lit := ⟨v, true⟩

/-- Negative literal of variable `v`. -/
def negLit (v : Nat) : Lit := ⟨v, false⟩

/-- Evaluate a literal under an assignment. -/
def evalLit (m : Nat → Bool) (l : Lit) : Bool :=
  if l.pos then m l.var else !(m l.var)

/-- Evaluate a clause (disjunction) under an assignment. -/
def evalClause (m : Nat → Bool) (c : Clause) : Bool :=
  c.any (evalLit m)

/-- An assignment satisfies a formula when every clause evaluates to true. -/
def satisfiesF (m : Nat → Bool) (F : List Clause) : Bool :=
  F.all (evalClause m)

/-- The input directed graph `Graph &m_G`, with the dense integer identities
`NodeArray<int> N` / `EdgeArray<int> M` built in: nodes are `0..n-1` and
edge `e` (for `e < edges.length`) is `edges[e]`. -/
structure Digraph where
  n : Nat
  edges : List (Nat × Nat)
deriving DecidableEq, Repr

/-- Number of edges. -/
def Digraph.m (g : Digraph) : Nat := g.edges.length

/-- Endpoints of edge index `e`. -/
def Digraph.edgeAt (g : Digraph) (e : Nat) : Nat × Nat := g.edges.getD e (0, 0)

/-- A well-formed input: every edge joins two distinct nodes in range
(the precondition that the input is a simple digraph on `0..n-1`). -/
def Digraph.Valid (g : Digraph) : Prop :=
  ∀ p ∈ g.edges, p.1 < g.n ∧ p.2 < g.n ∧ p.1 ≠ p.2

instance (g : Digraph) : Decidable g.Valid := by
  unfold Digraph.Valid; infer_instance

/-- Edge `e` is incident to node `v`. -/
def incidentB (g : Digraph) (e v : Nat) : Bool :=
  (g.edgeAt e).1 == v || (g.edgeAt e).2 == v

/-- Edges `a` and `b` share an endpoint. -/
def sharesNodeB (g : Digraph) (a b : Nat) : Bool :=
  (g.edgeAt a).1 == (g.edgeAt b).1 || (g.edgeAt a).1 == (g.edgeAt b).2 ||
  (g.edgeAt a).2 == (g.edgeAt b).1 || (g.edgeAt a).2 == (g.edgeAt b).2

/-- The list of edge indices incident to node `v` (the adjacency entries
of `v`), in edge-index order. -/
def incid (g : Digraph) (v : Nat) : List Nat :=
  (List.range g.m).filter (fun e => incidentB g e v)

/-- Modelled from the spec: the body of `UpSAT::computeDominatingEdges` is
not in the repository.  Per §4.1, for each edge it is "the list of edges
that rotationally dominate it — edges sharing an endpoint whose relative
clockwise placement around that endpoint must be fixed"; modelled as the
edges distinct from `e` sharing an endpoint with `e`. -/
def domEdges (g : Digraph) (e : Nat) : List Nat :=
  (List.range g.m).filter (fun d => d != e && sharesNodeB g e d)

/-- Ordered pairs of distinct nodes `(i, j)`, `i, j < n`: the index set of
the tau (order) variable family (§4.2: "for every ordered pair of nodes
that may need relative ordering"). -/
def tauKeys (n : Nat) : List (Nat × Nat) :=
  (List.range n).flatMap (fun i =>
    ((List.range n).filter (fun j => j != i)).map (fun j => (i, j)))

/-- Ordered pairs of distinct edges sharing an endpoint: the index set of the
sigma (rotation) variable family (§4.2: "for every pair of adjacency entries
incident to the same node"). -/
def sigmaKeys (g : Digraph) : List (Nat × Nat) :=
  (List.range g.m).flatMap (fun a =>
    ((List.range g.m).filter (fun b => b != a && sharesNodeB g a b)).map
      (fun b => (a, b)))

/-- Pairs `(e, d)` with `d` in the dominating list of `e`, built from a
dominating-edge table `D`: the index set of the mu (selection) variable
family (§4.2: "for every dominating-edge pair recorded in the table"). -/
def muKeysOf (g : Digraph) (D : Nat → List Nat) : List (Nat × Nat) :=
  (List.range g.m).flatMap (fun e => (D e).map (fun d => (e, d)))

/-- The mu keys of the canonical dominating-edge table. -/
def muKeys (g : Digraph) : List (Nat × Nat) :=
  muKeysOf g (domEdges g)

/-- Modelled from the spec: the allocation loop shared by
`UpSAT::computeTauVariables` / `computeSigmaVariables` /
`computeMuVariables` (bodies not in the repository).  Walking the key list,
the first occurrence of a key receives the next free id, starting at
`start`; absent keys get no id. -/
def assignIds : List (Nat × Nat) → Nat → Nat × Nat → Option Nat
  | [], _, _ => none
  | k :: ks, s, q => if q = k then some s else assignIds ks (s + 1) q

/-- The tau variable map of a freshly built test: tau ids start at 0. -/
def tauVar (g : Digraph) (p : Nat × Nat) : Option Nat :=
  assignIds (tauKeys g.n) 0 p

/-- First id of the sigma family: tau variables come first. -/
def sigmaStart (g : Digraph) : Nat := (tauKeys g.n).length

/-- The sigma variable map of a freshly built test. -/
def sigmaVar (g : Digraph) (p : Nat × Nat) : Option Nat :=
  assignIds (sigmaKeys g) (sigmaStart g) p

/-- First id of the mu family: after tau and sigma. -/
def muStart (g : Digraph) : Nat := sigmaStart g + (sigmaKeys g).length

/-- The mu variable map of a freshly built test. -/
def muVar (g : Digraph) (p : Nat × Nat) : Option Nat :=
  assignIds (muKeys g) (muStart g) p

/-- Total number of variables allocated for graph `g`. -/
def totalVars (g : Digraph) : Nat := muStart g + (muKeys g).length

/-- Solver-visible id of tau(i, j) as the rule engine reads it. -/
def tauIdx (g : Digraph) (i j : Nat) : Nat := (tauVar g (i, j)).getD 0

/-- Solver-visible id of sigma(a, b) as the rule engine reads it. -/
def sigmaIdx (g : Digraph) (a b : Nat) : Nat := (sigmaVar g (a, b)).getD 0

/-- Solver-visible id of mu(e, d) as the rule engine reads it. -/
def muIdx (g : Digraph) (e d : Nat) : Nat := (muVar g (e, d)).getD 0

/-- Modelled from the spec: the body of `UpSAT::ruleTauTransitive` is not in
the repository.  Per §4.3 item 1, for all distinct `i, j, k`:
`(tau(i,j) ∧ tau(j,k)) → tau(i,k)`, plus exactly-one-direction clauses over
every pair of nodes.  Parametrised over the tau id lookup `t`. -/
def tauTransClausesWith (n : Nat) (t : Nat → Nat → Nat) : List Clause :=
  ((List.range n).flatMap (fun i => (List.range n).flatMap (fun j =>
    (List.range n).flatMap (fun k =>
      if i ≠ j ∧ j ≠ k ∧ i ≠ k then
        [[negLit (t i j), negLit (t j k), posLit (t i k)]]
      else []))))
  ++ ((List.range n).flatMap (fun i =>
    ((List.range n).filter (fun j => decide (i < j))).flatMap (fun j =>
      [[posLit (t i j), posLit (t j i)],
       [negLit (t i j), negLit (t j i)]])))

/-- Modelled from the spec: the body of `UpSAT::ruleSigmaTransitive` is not
in the repository.  Per §4.3 item 2, the same transitive / exactly-one
pattern applied to rotation variables, scoped per node over its incident
adjacency entries. -/
def sigmaTransClausesWith (g : Digraph) (sg : Nat → Nat → Nat) : List Clause :=
  (List.range g.n).flatMap (fun v =>
    ((incid g v).flatMap (fun a => (incid g v).flatMap (fun b =>
      (incid g v).flatMap (fun c =>
        if a ≠ b ∧ b ≠ c ∧ a ≠ c then
          [[negLit (sg a b), negLit (sg b c), posLit (sg a c)]]
        else []))))
    ++ ((incid g v).flatMap (fun a =>
      ((incid g v).filter (fun b => decide (a < b))).flatMap (fun b =>
        [[posLit (sg a b), posLit (sg b a)],
         [negLit (sg a b), negLit (sg b a)]]))))

/-- Modelled from the spec: the body of `UpSAT::ruleUpward` is not in the
repository.  Per §4.3 item 3, for every directed edge `u→v` the order
variable for `(u, v)` is forced true by a unit clause. -/
def upwardClausesWith (g : Digraph) (t : Nat → Nat → Nat) : List Clause :=
  g.edges.map (fun p => [posLit (t p.1 p.2)])

/-- Modelled from the spec: the body of `UpSAT::rulePlanarity` is not in the
repository.  Per §4.3 item 4, for every dominating-edge pair `(e, d)` of the
table `D`, implications tie the rotation variables of the pair to its
selection variable; the exact published encoding is not recoverable (§9),
so the group is modelled as one implication per direction. -/
def planarityClausesWith (g : Digraph) (D : Nat → List Nat)
    (sg mf : Nat → Nat → Nat) : List Clause :=
  (muKeysOf g D).flatMap (fun p =>
    [[negLit (mf p.1 p.2), posLit (sg p.1 p.2)],
     [posLit (mf p.1 p.2), posLit (sg p.2 p.1)]])

/-- Modelled from the spec: the body of `UpSAT::ruleTutte` is not in the
repository.  Per §4.3 item 5, clauses tie the per-node rotation systems to
one coherent global embedding; the exact combinatorial content is left open
by the spec (§9), so the group is modelled as one closure clause over the
rotation variables of every dominating-edge pair. -/
def tutteClausesWith (g : Digraph) (D : Nat → List Nat)
    (sg : Nat → Nat → Nat) : List Clause :=
  (muKeysOf g D).map (fun p => [posLit (sg p.1 p.2), posLit (sg p.2 p.1)])

/-- Modelled from the spec: the body of `UpSAT::ruleFixed` is not in the
repository.  Per §4.3, the optional sixth group adds unit clauses pinning
order variables to the values induced by an externally supplied node order. -/
def fixedClausesWith (n : Nat) (t : Nat → Nat → Nat)
    (ord : Nat → Nat) : List Clause :=
  (tauKeys n).map (fun p =>
    if ord p.1 < ord p.2 then [posLit (t p.1 p.2)] else [negLit (t p.1 p.2)])

/-- The state of one `UpSAT` instance, mirroring the private data members of
class `UpSAT` in the header: the flag, the graph reference, the two
counters, the node/edge index arrays `N`/`M`, the dominating-edge table
`D`, the three variable maps and the Minisat formula `m_F`. -/
structure UpSAT where
  feasibleOriginalEdges : Bool
  m_G : Digraph
  numberOfVariables : Nat
  numberOfClauses : Nat
  N : Nat → Nat
  M : Nat → Nat
  D : Nat → List Nat
  tau : Nat × Nat → Option Nat
  sigma : Nat × Nat → Option Nat
  mu : Nat × Nat → Option Nat
  m_F : List Clause

/-- Modelled from the spec: the bodies of the `UpSAT` constructors are not
in the repository.  Per §3, construction stores the graph reference, builds
the dense node/edge identities and the dominating-edge table, and leaves
counters, variable maps and formula empty. -/
def mkUpSAT (g : Digraph) (flag : Bool) : UpSAT :=
  { feasibleOriginalEdges := flag
    m_G := g
    numberOfVariables := 0
    numberOfClauses := 0
    N := fun v => v
    M := fun e => e
    D := fun e => domEdges g e
    tau := fun _ => none
    sigma := fun _ => none
    mu := fun _ => none
    m_F := [] }

/-- Modelled from the spec: the body of `UpSAT::reset` is not in the
repository.  Per §6, it clears the Formula, the variable maps and the
counters; the Graph Index and Dominating-Edge Table are retained. -/
def UpSAT.reset (s : UpSAT) : UpSAT :=
  { s with
    numberOfVariables := 0
    numberOfClauses := 0
    tau := fun _ => none
    sigma := fun _ => none
    mu := fun _ => none
    m_F := [] }

/-- Modelled from the spec: the body of `UpSAT::computeTauVariables` is not
in the repository.  Allocates one order variable per ordered pair of
distinct nodes, ids continuing from the current variable counter. -/
def computeTauVariables (s : UpSAT) : UpSAT :=
  { s with
    tau := fun p => assignIds (tauKeys s.m_G.n) s.numberOfVariables p
    numberOfVariables := s.numberOfVariables + (tauKeys s.m_G.n).length }

/-- Modelled from the spec: the body of `UpSAT::computeSigmaVariables` is
not in the repository.  Allocates one rotation variable per pair of
adjacency entries sharing a node, ids continuing from the counter. -/
def computeSigmaVariables (s : UpSAT) : UpSAT :=
  { s with
    sigma := fun p => assignIds (sigmaKeys s.m_G) s.numberOfVariables p
    numberOfVariables := s.numberOfVariables + (sigmaKeys s.m_G).length }

/-- Modelled from the spec: the body of `UpSAT::computeMuVariables` is not
in the repository.  Allocates one selection variable per dominating-edge
pair of the table `D`, ids continuing from the counter. -/
def computeMuVariables (s : UpSAT) : UpSAT :=
  { s with
    mu := fun p => assignIds (muKeysOf s.m_G s.D) s.numberOfVariables p
    numberOfVariables := s.numberOfVariables + (muKeysOf s.m_G s.D).length }

/-- Append a clause group to the Formula and advance the clause counter;
the shared tail of every rule generator. -/
def appendClauses (s : UpSAT) (cs : List Clause) : UpSAT :=
  { s with m_F := s.m_F ++ cs, numberOfClauses := s.numberOfClauses + cs.length }

/-- Modelled from the spec: `UpSAT::ruleTauTransitive` (body not in the
repository) appends the order-transitivity clause group. -/
def ruleTauTransitive (s : UpSAT) : UpSAT :=
  appendClauses s
    (tauTransClausesWith s.m_G.n (fun i j => (s.tau (i, j)).getD 0))

/-- Modelled from the spec: `UpSAT::ruleSigmaTransitive` (body not in the
repository) appends the rotation-transitivity clause group. -/
def ruleSigmaTransitive (s : UpSAT) : UpSAT :=
  appendClauses s
    (sigmaTransClausesWith s.m_G (fun a b => (s.sigma (a, b)).getD 0))

/-- Modelled from the spec: `UpSAT::ruleUpward` (body not in the
repository) appends the upward-consistency clause group. -/
def ruleUpward (s : UpSAT) : UpSAT :=
  appendClauses s
    (upwardClausesWith s.m_G (fun i j => (s.tau (i, j)).getD 0))

/-- Modelled from the spec: `UpSAT::rulePlanarity` (body not in the
repository) appends the planarity clause group. -/
def rulePlanarity (s : UpSAT) : UpSAT :=
  appendClauses s
    (planarityClausesWith s.m_G s.D (fun a b => (s.sigma (a, b)).getD 0)
      (fun e d => (s.mu (e, d)).getD 0))

/-- Modelled from the spec: `UpSAT::ruleTutte` (body not in the
repository) appends the global-consistency clause group. -/
def ruleTutte (s : UpSAT) : UpSAT :=
  appendClauses s
    (tutteClausesWith s.m_G s.D (fun a b => (s.sigma (a, b)).getD 0))

/-- Modelled from the spec: `UpSAT::ruleFixed` (body not in the repository)
appends the optional fixed-order unit clause group for a supplied node
order. -/
def ruleFixed (s : UpSAT) (ord : Nat → Nat) : UpSAT :=
  appendClauses s
    (fixedClausesWith s.m_G.n (fun i j => (s.tau (i, j)).getD 0) ord)

/-- Modelled from the spec: the build phase shared by
`UpSAT::testUpwardPlanarity` and `UpSAT::embedUpwardPlanar` (bodies not in
the repository).  Allocates the three variable families, then runs the five
clause groups in the fixed §4.3 sequence. -/
def buildAll (s : UpSAT) : UpSAT :=
  ruleTutte (rulePlanarity (ruleUpward (ruleSigmaTransitive (ruleTauTransitive
    (computeMuVariables (computeSigmaVariables (computeTauVariables s)))))))

/-- The formula generated for graph `g` by a freshly constructed test. -/
def formulaOf (g : Digraph) : List Clause :=
  (buildAll (mkUpSAT g false)).m_F

/-- Outcome of the external Minisat engine: SAT with a complete assignment,
UNSAT, or a failure of the engine itself (§4.4). -/
inductive SolverResult where
  | sat (m : Nat → Bool)
  | unsat
  | failure

/-- The external solver, treated as a collaborator: a function from the
accumulated clause set to an outcome. -/
abbrev SolverFn := List Clause → SolverResult

/-- The fatal condition surfaced to the caller on solver failure (§7 (b)). -/
inductive SolverError where
  | engineFailure
deriving DecidableEq, Repr

/-- Modelled from the spec: the body of `UpSAT::writeNodeOrder` is not in
the repository.  Per §6, it fills the output node order from the order
variables of the model; node `v` receives the number of nodes that precede
it in the extracted global order. -/
def writeNodeOrder (g : Digraph) (m : Nat → Bool) : Nat → Nat :=
  fun v => ((List.range g.n).filter (fun u => u != v && m (tauIdx g u v))).length

/-- Insert `a` into `l` before the first element `b` with `r a b`. -/
def orderedInsertBy (r : Nat → Nat → Bool) (a : Nat) : List Nat → List Nat
  | [] => [a]
  | b :: l => if r a b then a :: b :: l else b :: orderedInsertBy r a l

/-- Insertion sort by the boolean relation `r`. -/
def insertionSortBy (r : Nat → Nat → Bool) : List Nat → List Nat
  | [] => []
  | a :: l => orderedInsertBy r a (insertionSortBy r l)

/-- Modelled from the spec: the body of `UpSAT::sortBySigma` is not in the
repository.  Per §4.5, it sorts a node's incident adjacency entries by the
total order induced by the rotation variables in the model. -/
def sortBySigma (g : Digraph) (m : Nat → Bool) (l : List Nat) : List Nat :=
  insertionSortBy (fun a b => m (sigmaIdx g a b)) l

/-- Undirected neighbours of node `v`. -/
def neighbors (g : Digraph) (v : Nat) : List Nat :=
  g.edges.flatMap (fun p =>
    if p.1 = v then [p.2] else if p.2 = v then [p.1] else [])

/-- One expansion step of the reachability front. -/
def expand (g : Digraph) (front : List Nat) : List Nat :=
  (front ++ front.flatMap (neighbors g)).dedup

/-- Nodes reachable from node 0 in at most `k` undirected steps. -/
def reachN (g : Digraph) : Nat → List Nat
  | 0 => [0]
  | k + 1 => expand g (reachN g k)

/-- The graph is connected as one undirected component. -/
def connectedB (g : Digraph) : Bool :=
  (List.range g.n).all (fun v => (reachN g g.n).contains v)

/-- The structural pre-check finds a degenerate shape. -/
def trivialB (g : Digraph) : Bool :=
  g.n ≤ 1 || g.m == 0

/-- The three extraction strategies of the Embedding Extractor (§4.5),
a closed tagged variant per the design notes (§9). -/
inductive Strategy where
  | oe
  | fpss
  | hl
deriving DecidableEq, Repr

/-- Modelled from the spec: the structural classification choosing among
`UpSAT::OE` / `UpSAT::FPSS` / `UpSAT::HL` is not in the repository.  Per
§4.5, the branch is chosen by a structural pre-check on the graph
(triviality, connectivity) performed before solving. -/
def classifyEmbed (g : Digraph) : Strategy :=
  if trivialB g then .fpss else if connectedB g then .oe else .hl

/-- Modelled from the spec: the body of `UpSAT::FPSS` is not in the
repository.  Per §4.5, it answers feasibility only: it may populate a
requested node order but never produces a rotation system; the ambient
adjacency structure and the outer-face slot pass through unchanged. -/
def FPSS (g : Digraph) (m : Nat → Bool) (wantOrder : Bool)
    (adj0 : Nat → List Nat) (pre : Option Nat) :
    Bool × (Nat → List Nat) × Option Nat × Option (Nat → Nat) :=
  (true, adj0, pre, if wantOrder then some (writeNodeOrder g m) else none)

/-- Modelled from the spec: the body of `UpSAT::OE` is not in the
repository.  Per §4.5, when embedding it sorts each node's incident
adjacency entries by the rotation order of the model, writes the rotation
system into the adjacency structure and returns the adjacency entry
bounding the outer face; if no such entry exists the construction fails and
all outputs pass through unchanged. -/
def OE (embed : Bool) (g : Digraph) (m : Nat → Bool) (wantOrder : Bool)
    (adj0 : Nat → List Nat) (pre : Option Nat) :
    Bool × (Nat → List Nat) × Option Nat × Option (Nat → Nat) :=
  let no := if wantOrder then some (writeNodeOrder g m) else none
  match embed with
  | true =>
    match (sortBySigma g m (incid g 0)).head? with
    | some a => (true, fun v => sortBySigma g m (incid g v), some a, no)
    | none => (false, adj0, pre, no)
  | false => (true, adj0, pre, no)

/-- Modelled from the spec: the body of `UpSAT::HL` is not in the
repository.  Per §4.5, after case-splitting pre-processing it delegates to
the same rotation-sorting / outer-face logic as `OE`; modelled as the
delegation itself. -/
def HL (embed : Bool) (g : Digraph) (m : Nat → Bool) (wantOrder : Bool)
    (adj0 : Nat → List Nat) (pre : Option Nat) :
    Bool × (Nat → List Nat) × Option Nat × Option (Nat → Nat) :=
  OE embed g m wantOrder adj0 pre

/-- Modelled from the spec: the body of `UpSAT::testUpwardPlanarity` is not
in the repository.  Per §6, it builds index, tables, variables and clause
groups, solves once, optionally fills the output node order, and returns
satisfiability; UNSAT yields `false` (§7 (d)) while solver failure is a
fatal condition (§7 (b)). -/
def testUpwardPlanarityST (s : UpSAT) (solver : SolverFn) (wantOrder : Bool) :
    UpSAT × Except SolverError (Bool × Option (Nat → Nat)) :=
  let t := buildAll s
  match solver t.m_F with
  | .sat m =>
      let r := FPSS t.m_G m wantOrder (fun v => incid t.m_G v) none
      (t, .ok (r.1, r.2.2.2))
  | .unsat => (t, .ok (false, none))
  | .failure => (t, .error .engineFailure)

/-- Modelled from the spec: the body of `UpSAT::embedUpwardPlanar` is not
in the repository.  Per §6 and §4.5, it performs the same build/solve as
the test, then runs the Embedding Extractor state machine; `adj0` is the
graph's adjacency structure before the call and `pre` the caller's
outer-face variable before the call; on failure both are passed through
unchanged and the boolean result is `false`. -/
def embedUpwardPlanarST (s : UpSAT) (solver : SolverFn)
    (adj0 : Nat → List Nat) (pre : Option Nat) (wantOrder : Bool) :
    UpSAT × (Nat → List Nat) ×
      Except SolverError (Bool × Option Nat × Option (Nat → Nat)) :=
  let t := buildAll s
  match solver t.m_F with
  | .sat m =>
      match classifyEmbed t.m_G with
      | .fpss =>
          let r := FPSS t.m_G m wantOrder adj0 pre
          (t, r.2.1, .ok (false, r.2.2.1, r.2.2.2))
      | .oe =>
          let r := OE true t.m_G m wantOrder adj0 pre
          (t, r.2.1, .ok (r.1, r.2.2.1, r.2.2.2))
      | .hl =>
          let r := HL true t.m_G m wantOrder adj0 pre
          (t, r.2.1, .ok (r.1, r.2.2.1, r.2.2.2))
  | .unsat => (t, adj0, .ok (false, pre, none))
  | .failure => (t, adj0, .error .engineFailure)

/-- The call `UpSAT::testUpwardPlanarity` with its defaulted argument: the header
declares `testUpwardPlanarity(NodeArray<int> *nodeOrder = nullptr)`, so a
call without arguments passes no node-order output. -/
def testUpwardPlanarityDefault (s : UpSAT) (solver : SolverFn) :
    UpSAT × Except SolverError (Bool × Option (Nat → Nat)) :=
  testUpwardPlanarityST s solver false

/-- The call `UpSAT::embedUpwardPlanar` with its defaulted argument: the header
declares `embedUpwardPlanar(adjEntry&, NodeArray<int> *nodeOrder = nullptr)`,
so a call without the second argument passes no node-order output. -/
def embedUpwardPlanarDefault (s : UpSAT) (solver : SolverFn)
    (adj0 : Nat → List Nat) (pre : Option Nat) :
    UpSAT × (Nat → List Nat) ×
      Except SolverError (Bool × Option Nat × Option (Nat → Nat)) :=
  embedUpwardPlanarST s solver adj0 pre false

/-- The getter `UpSAT::getNumberOfClauses` returns the clause counter. -/
def UpSAT.getNumberOfClauses (s : UpSAT) : Nat := s.numberOfClauses

/-- The getter `UpSAT::getNumberOfVariables` returns the variable counter. -/
def UpSAT.getNumberOfVariables (s : UpSAT) : Nat := s.numberOfVariables

/-- The value range of the C++ type `int` (32-bit signed) used for the data
member `int numberOfVariables` and the return type of
`int getNumberOfVariables()` in the header. -/
def variableCounterInRange (x : Int) : Prop :=
  -(2 ^ 31) ≤ x ∧ x < 2 ^ 31

/-- The value range of the C++ type `long long` (64-bit signed) used for the
data member `long long numberOfClauses` and the return type of
`long long getNumberOfClauses()` in the header. -/
def clauseCounterInRange (x : Int) : Prop :=
  -(2 ^ 63) ≤ x ∧ x < 2 ^ 63

/-- A two-node test graph with the single directed edge 0→1 (the §8
scenario "a two-node graph with a single directed edge u→v"). -/
def exG : Digraph := ⟨2, [(0, 1)]⟩

/-- A satisfying assignment for the formula generated on `exG`: exactly the
variable tau(0, 1), which has id 0, is true. -/
def exM : Nat → Bool := fun v => v == 0

/-- A single-node graph: a degenerate shape for the structural pre-check. -/
def exTrivial : Digraph := ⟨1, []⟩

/-- A solver stub that always reports UNSAT. -/
def unsatSolver : SolverFn := fun _ => SolverResult.unsat

/-- A solver stub that always fails. -/
def failSolver : SolverFn := fun _ => SolverResult.failure

/-- A solver stub that always reports SAT with the assignment `exM`. -/
def satSolver : SolverFn := fun _ => SolverResult.sat exM

/-! ### Clause evaluation helpers -/

theorem satisfiesF_iff {m : Nat → Bool} {F : List Clause} :
    satisfiesF m F = true ↔ ∀ c ∈ F, evalClause m c = true := by
  simp [satisfiesF, List.all_eq_true]

theorem eval_unit {m : Nat → Bool} {x : Nat}
    (h : evalClause m [posLit x] = true) : m x = true := by
  simpa [evalClause, evalLit, posLit] using h

theorem eval_or2 {m : Nat → Bool} {x y : Nat}
    (h : evalClause m [posLit x, posLit y] = true) :
    m x = true ∨ m y = true := by
  simpa [evalClause, evalLit, posLit] using h

theorem eval_nand2 {m : Nat → Bool} {x y : Nat}
    (h : evalClause m [negLit x, negLit y] = true) :
    m x = false ∨ m y = false := by
  simpa [evalClause, evalLit, negLit, Bool.not_eq_true', Bool.or_eq_true] using h

theorem eval_imp3 {m : Nat → Bool} {x y z : Nat}
    (h : evalClause m [negLit x, negLit y, posLit z] = true)
    (hx : m x = true) (hy : m y = true) : m z = true := by
  simpa [evalClause, evalLit, negLit, posLit, hx, hy] using h

/-! ### Membership in the key lists -/

theorem mem_tauKeys {n i j : Nat} :
    (i, j) ∈ tauKeys n ↔ i < n ∧ j < n ∧ j ≠ i := by
  simp only [tauKeys, List.mem_flatMap, List.mem_map, List.mem_filter,
    List.mem_range, bne_iff_ne, ne_eq, Prod.mk.injEq]
  constructor
  · rintro ⟨a, ha, b, ⟨hb, hne⟩, rfl, rfl⟩
    exact ⟨ha, hb, hne⟩
  · rintro ⟨hi, hj, hne⟩
    exact ⟨i, hi, j, ⟨hj, hne⟩, rfl, rfl⟩

theorem mem_sigmaKeys {g : Digraph} {a b : Nat} :
    (a, b) ∈ sigmaKeys g ↔
      a < g.m ∧ b < g.m ∧ b ≠ a ∧ sharesNodeB g a b = true := by
  simp only [sigmaKeys, List.mem_flatMap, List.mem_map, List.mem_filter,
    List.mem_range, Bool.and_eq_true, bne_iff_ne, ne_eq, Prod.mk.injEq]
  constructor
  · rintro ⟨x, hx, y, ⟨hy, hne, hsh⟩, rfl, rfl⟩
    exact ⟨hx, hy, hne, hsh⟩
  · rintro ⟨ha, hb, hne, hsh⟩
    exact ⟨a, ha, b, ⟨hb, hne, hsh⟩, rfl, rfl⟩

theorem mem_domEdges {g : Digraph} {e d : Nat} :
    d ∈ domEdges g e ↔ d < g.m ∧ d ≠ e ∧ sharesNodeB g e d = true := by
  simp [domEdges, List.mem_filter, List.mem_range, bne_iff_ne, and_assoc]

theorem mem_muKeysOf {g : Digraph} {D : Nat → List Nat} {e d : Nat} :
    (e, d) ∈ muKeysOf g D ↔ e < g.m ∧ d ∈ D e := by
  simp only [muKeysOf, List.mem_flatMap, List.mem_map, List.mem_range,
    Prod.mk.injEq]
  constructor
  · rintro ⟨x, hx, y, hy, rfl, rfl⟩
    exact ⟨hx, hy⟩
  · rintro ⟨he, hd⟩
    exact ⟨e, he, d, hd, rfl, rfl⟩

theorem mem_incid {g : Digraph} {e v : Nat} :
    e ∈ incid g v ↔ e < g.m ∧ incidentB g e v = true := by
  simp [incid, List.mem_filter, List.mem_range]

theorem sharesNodeB_symm {g : Digraph} {a b : Nat}
    (h : sharesNodeB g a b = true) : sharesNodeB g b a = true := by
  simp only [sharesNodeB, Bool.or_eq_true, beq_iff_eq] at h ⊢
  tauto

theorem sharesNodeB_of_incident {g : Digraph} {a b v : Nat}
    (ha : incidentB g a v = true) (hb : incidentB g b v = true) :
    sharesNodeB g a b = true := by
  simp only [incidentB, sharesNodeB, Bool.or_eq_true, beq_iff_eq] at ha hb ⊢
  rcases ha with h1 | h1 <;> rcases hb with h2 | h2 <;>
    simp [h1, h2]

/-! ### Properties of the id allocator -/

theorem assignIds_ge {ks : List (Nat × Nat)} {s a : Nat} {q : Nat × Nat}
    (h : assignIds ks s q = some a) : s ≤ a := by
  induction ks generalizing s with
  | nil => simp [assignIds] at h
  | cons k ks ih =>
    simp only [assignIds] at h
    split at h
    · cases h; exact Nat.le_refl _
    · exact Nat.le_of_succ_le (ih h)

theorem assignIds_lt {ks : List (Nat × Nat)} {s a : Nat} {q : Nat × Nat}
    (h : assignIds ks s q = some a) : a < s + ks.length := by
  induction ks generalizing s with
  | nil => simp [assignIds] at h
  | cons k ks ih =>
    simp only [assignIds] at h
    split at h
    · cases h; simp [Nat.lt_succ_of_le, Nat.le_add_right]
    · have := ih h
      simp only [List.length_cons]
      omega

theorem assignIds_isSome_of_mem {ks : List (Nat × Nat)} {s : Nat}
    {q : Nat × Nat} (h : q ∈ ks) : (assignIds ks s q).isSome = true := by
  induction ks generalizing s with
  | nil => simp at h
  | cons k ks ih =>
    by_cases hq : q = k
    · subst hq; simp [assignIds]
    · rcases List.mem_cons.mp h with h' | h'
      · exact absurd h' hq
      · simpa [assignIds, hq] using ih h'

theorem assignIds_inj {ks : List (Nat × Nat)} {s a b : Nat}
    {p q : Nat × Nat} (hpq : p ≠ q)
    (hp : assignIds ks s p = some a) (hq : assignIds ks s q = some b) :
    a ≠ b := by
  induction ks generalizing s with
  | nil => simp [assignIds] at hp
  | cons k ks ih =>
    simp only [assignIds] at hp hq
    by_cases hpk : p = k
    · have hqk : q ≠ k := fun h => hpq (hpk.trans h.symm)
      rw [if_pos hpk] at hp
      rw [if_neg hqk] at hq
      cases hp
      have := assignIds_ge hq
      omega
    · rw [if_neg hpk] at hp
      by_cases hqk : q = k
      · rw [if_pos hqk] at hq
        cases hq
        have := assignIds_ge hp
        omega
      · rw [if_neg hqk] at hq
        exact ih hp hq

theorem assignIds_append_of_not_mem {ks₁ ks₂ : List (Nat × Nat)} {s : Nat}
    {q : Nat × Nat} (h : q ∉ ks₁) :
    assignIds (ks₁ ++ ks₂) s q = assignIds ks₂ (s + ks₁.length) q := by
  induction ks₁ generalizing s with
  | nil => simp [assignIds]
  | cons k ks ih =>
    have hqk : q ≠ k := fun hh => h (hh ▸ List.mem_cons_self _ _)
    have hrest : q ∉ ks := fun hh => h (List.mem_cons_of_mem _ hh)
    rw [List.cons_append]
    simp only [assignIds, if_neg hqk]
    rw [ih hrest, List.length_cons]
    congr 1
    omega

theorem assignIds_append_of_mem {ks₁ ks₂ : List (Nat × Nat)} {s : Nat}
    {p : Nat × Nat} (h : p ∈ ks₁) :
    assignIds (ks₁ ++ ks₂) s p = assignIds ks₁ s p := by
  induction ks₁ generalizing s with
  | nil => simp at h
  | cons k ks ih =>
    by_cases hpk : p = k
    · simp [assignIds, hpk]
    · rcases List.mem_cons.mp h with h' | h'
      · exact absurd h' hpk
      · simp [assignIds, hpk, ih h']

/-- Keys allocated in an earlier segment of the key list receive strictly
smaller ids: the allocation is monotone in traversal order. -/
theorem assignIds_mono {ks₁ ks₂ : List (Nat × Nat)} {s a b : Nat}
    {p q : Nat × Nat} (hp₁ : p ∈ ks₁) (hq₁ : q ∉ ks₁)
    (hp : assignIds (ks₁ ++ ks₂) s p = some a)
    (hq : assignIds (ks₁ ++ ks₂) s q = some b) : a < b := by
  rw [assignIds_append_of_mem hp₁] at hp
  rw [assignIds_append_of_not_mem hq₁] at hq
  have h1 := assignIds_lt hp
  have h2 := assignIds_ge hq
  omega

theorem option_some_getD {o : Option Nat} (h : o.isSome = true) :
    o = some (o.getD 0) := by
  cases o <;> simp at h ⊢

theorem tauVar_eq_some {g : Digraph} {i j : Nat}
    (h : (i, j) ∈ tauKeys g.n) : tauVar g (i, j) = some (tauIdx g i j) :=
  option_some_getD (assignIds_isSome_of_mem h)

theorem sigmaVar_eq_some {g : Digraph} {a b : Nat}
    (h : (a, b) ∈ sigmaKeys g) : sigmaVar g (a, b) = some (sigmaIdx g a b) :=
  option_some_getD (assignIds_isSome_of_mem h)

theorem muVar_eq_some {g : Digraph} {e d : Nat}
    (h : (e, d) ∈ muKeys g) : muVar g (e, d) = some (muIdx g e d) :=
  option_some_getD (assignIds_isSome_of_mem h)

/-! ### The generated formula of a fresh test -/

/-- The five clause groups of §4.3 over the canonical variable ids,
concatenated in their fixed generation order. -/
def generatedClauses (g : Digraph) : List Clause :=
  tauTransClausesWith g.n (tauIdx g)
    ++ sigmaTransClausesWith g (sigmaIdx g)
    ++ upwardClausesWith g (tauIdx g)
    ++ planarityClausesWith g (domEdges g) (sigmaIdx g) (muIdx g)
    ++ tutteClausesWith g (domEdges g) (sigmaIdx g)

theorem buildAll_mk_m_F (g : Digraph) (flag : Bool) :
    (buildAll (mkUpSAT g flag)).m_F = generatedClauses g := by
  simp only [buildAll, mkUpSAT, computeTauVariables, computeSigmaVariables,
    computeMuVariables, ruleTauTransitive, ruleSigmaTransitive, ruleUpward,
    rulePlanarity, ruleTutte, appendClauses,
    Nat.zero_add, List.nil_append, generatedClauses, tauIdx,
    sigmaIdx, muIdx, tauVar, sigmaVar, muVar, sigmaStart, muStart, muKeys,
    List.append_assoc]
  rfl

theorem formulaOf_eq (g : Digraph) : formulaOf g = generatedClauses g :=
  buildAll_mk_m_F g false

theorem buildAll_mk_vars (g : Digraph) (flag : Bool) :
    (buildAll (mkUpSAT g flag)).numberOfVariables = totalVars g := by
  simp only [buildAll, mkUpSAT, computeTauVariables, computeSigmaVariables,
    computeMuVariables, ruleTauTransitive, ruleSigmaTransitive, ruleUpward,
    rulePlanarity, ruleTutte, appendClauses, Nat.zero_add, totalVars,
    sigmaStart, muStart, muKeys]

theorem buildAll_mk_clauses (g : Digraph) (flag : Bool) :
    (buildAll (mkUpSAT g flag)).numberOfClauses = (generatedClauses g).length := by
  simp only [buildAll, mkUpSAT, computeTauVariables, computeSigmaVariables,
    computeMuVariables, ruleTauTransitive, ruleSigmaTransitive, ruleUpward,
    rulePlanarity, ruleTutte, appendClauses,
    Nat.zero_add, generatedClauses, tauIdx, sigmaIdx, muIdx,
    tauVar, sigmaVar, muVar, sigmaStart, muStart, muKeys,
    List.length_append, Nat.add_assoc]
  rfl

theorem buildAll_m_G (s : UpSAT) : (buildAll s).m_G = s.m_G := rfl

theorem buildAll_D (s : UpSAT) : (buildAll s).D = s.D := rfl

theorem testST_fst (s : UpSAT) (solver : SolverFn) (w : Bool) :
    (testUpwardPlanarityST s solver w).1 = buildAll s := by
  cases h : solver (buildAll s).m_F <;> simp [testUpwardPlanarityST, h]

/-- The fields of an `UpSAT` instance that the build/solve pipeline reads
and writes: everything except the flag and the retained node/edge index
arrays. -/
def UpSAT.core (s : UpSAT) :=
  (s.m_G, s.numberOfVariables, s.numberOfClauses, s.D, s.tau, s.sigma,
    s.mu, s.m_F)

theorem core_buildAll {s₁ s₂ : UpSAT} (h : s₁.core = s₂.core) :
    (buildAll s₁).core = (buildAll s₂).core := by
  cases s₁
  cases s₂
  simp only [UpSAT.core, Prod.mk.injEq] at h ⊢
  obtain ⟨h1, h2, h3, h4, h5, h6, h7, h8⟩ := h
  subst h1; subst h2; subst h3; subst h4; subst h5; subst h6; subst h7
  subst h8
  simp [buildAll, computeTauVariables, computeSigmaVariables,
    computeMuVariables, ruleTauTransitive, ruleSigmaTransitive, ruleUpward,
    rulePlanarity, ruleTutte, appendClauses]

theorem testST_snd_of_core {s₁ s₂ : UpSAT} (h : s₁.core = s₂.core)
    (solver : SolverFn) (w : Bool) :
    (testUpwardPlanarityST s₁ solver w).2 =
      (testUpwardPlanarityST s₂ solver w).2 := by
  have hb := core_buildAll h
  have hG : (buildAll s₁).m_G = (buildAll s₂).m_G :=
    congrArg (fun c => c.1) hb
  have hF : (buildAll s₁).m_F = (buildAll s₂).m_F :=
    congrArg (fun c => c.2.2.2.2.2.2.2) hb
  simp only [testUpwardPlanarityST, hF, hG]
  cases solver (buildAll s₂).m_F <;> rfl

/-! ### Membership of the individual clauses in the generated groups -/

theorem mem_generated_of_tau {g : Digraph} {c : Clause}
    (h : c ∈ tauTransClausesWith g.n (tauIdx g)) : c ∈ generatedClauses g := by
  unfold generatedClauses
  simp only [List.mem_append]
  exact Or.inl (Or.inl (Or.inl (Or.inl h)))

theorem mem_generated_of_sigma {g : Digraph} {c : Clause}
    (h : c ∈ sigmaTransClausesWith g (sigmaIdx g)) : c ∈ generatedClauses g := by
  unfold generatedClauses
  simp only [List.mem_append]
  exact Or.inl (Or.inl (Or.inl (Or.inr h)))

theorem mem_generated_of_upward {g : Digraph} {c : Clause}
    (h : c ∈ upwardClausesWith g (tauIdx g)) : c ∈ generatedClauses g := by
  unfold generatedClauses
  simp only [List.mem_append]
  exact Or.inl (Or.inl (Or.inr h))

theorem mem_generated_of_planarity {g : Digraph} {c : Clause}
    (h : c ∈ planarityClausesWith g (domEdges g) (sigmaIdx g) (muIdx g)) :
    c ∈ generatedClauses g := by
  unfold generatedClauses
  simp only [List.mem_append]
  exact Or.inl (Or.inr h)

theorem mem_generated_of_tutte {g : Digraph} {c : Clause}
    (h : c ∈ tutteClausesWith g (domEdges g) (sigmaIdx g)) :
    c ∈ generatedClauses g := by
  unfold generatedClauses
  simp only [List.mem_append]
  exact Or.inr h

theorem mem_tauTrans_trans {n i j k : Nat} (t : Nat → Nat → Nat)
    (hi : i < n) (hj : j < n) (hk : k < n)
    (hij : i ≠ j) (hjk : j ≠ k) (hik : i ≠ k) :
    [negLit (t i j), negLit (t j k), posLit (t i k)]
      ∈ tauTransClausesWith n t := by
  apply List.mem_append_left
  refine List.mem_flatMap.mpr ⟨i, List.mem_range.mpr hi, ?_⟩
  refine List.mem_flatMap.mpr ⟨j, List.mem_range.mpr hj, ?_⟩
  refine List.mem_flatMap.mpr ⟨k, List.mem_range.mpr hk, ?_⟩
  rw [if_pos ⟨hij, hjk, hik⟩]
  exact List.mem_singleton.mpr rfl

theorem mem_tauTrans_pair_pos {n i j : Nat} (t : Nat → Nat → Nat)
    (hi : i < n) (hj : j < n) (hlt : i < j) :
    [posLit (t i j), posLit (t j i)] ∈ tauTransClausesWith n t := by
  apply List.mem_append_right
  refine List.mem_flatMap.mpr ⟨i, List.mem_range.mpr hi, ?_⟩
  refine List.mem_flatMap.mpr
    ⟨j, List.mem_filter.mpr ⟨List.mem_range.mpr hj, by simpa using hlt⟩, ?_⟩
  simp

theorem mem_tauTrans_pair_neg {n i j : Nat} (t : Nat → Nat → Nat)
    (hi : i < n) (hj : j < n) (hlt : i < j) :
    [negLit (t i j), negLit (t j i)] ∈ tauTransClausesWith n t := by
  apply List.mem_append_right
  refine List.mem_flatMap.mpr ⟨i, List.mem_range.mpr hi, ?_⟩
  refine List.mem_flatMap.mpr
    ⟨j, List.mem_filter.mpr ⟨List.mem_range.mpr hj, by simpa using hlt⟩, ?_⟩
  simp

theorem mem_upwardClauses {g : Digraph} (t : Nat → Nat → Nat)
    {p : Nat × Nat} (hp : p ∈ g.edges) :
    [posLit (t p.1 p.2)] ∈ upwardClausesWith g t :=
  List.mem_map_of_mem _ hp

/-- Exactly-one clauses on a Boolean pair force one true and one false. -/
theorem bool_xor_of_or_nand {a b : Bool} (hor : a = true ∨ b = true)
    (hnand : a = false ∨ b = false) :
    (a = true ↔ b = false) ∧ (b = true ↔ a = false) := by
  cases a <;> cases b <;> simp_all

/-! ### Claim C1 -/

/-- C1: for every graph on which the solver returns SAT, the returned model
satisfies the generated formula, and then the order relation induced by the
tau variables is a strict total order over all constrained (distinct) node
pairs — exactly one direction holds for each pair, and the relation is
transitive — and for every directed edge u→v of the input the order
variable for (u, v) is true, so u precedes v in the extracted order. -/
theorem tau_model_is_strict_total_order (g : Digraph) (m : Nat → Bool)
    (hsat : satisfiesF m (formulaOf g) = true) :
    (∀ i j, i < g.n → j < g.n → i ≠ j →
      (m (tauIdx g i j) = true ↔ m (tauIdx g j i) = false)) ∧
    (∀ i j k, i < g.n → j < g.n → k < g.n → i ≠ j → j ≠ k → i ≠ k →
      m (tauIdx g i j) = true → m (tauIdx g j k) = true →
      m (tauIdx g i k) = true) ∧
    (∀ p ∈ g.edges, m (tauIdx g p.1 p.2) = true) := by
  rw [formulaOf_eq] at hsat
  have hall := satisfiesF_iff.mp hsat
  refine ⟨?_, ?_, ?_⟩
  · intro i j hi hj hij
    rcases Nat.lt_or_ge i j with hlt | hge
    · have hor := eval_or2
        (hall _ (mem_generated_of_tau (mem_tauTrans_pair_pos (tauIdx g) hi hj hlt)))
      have hnand := eval_nand2
        (hall _ (mem_generated_of_tau (mem_tauTrans_pair_neg (tauIdx g) hi hj hlt)))
      exact (bool_xor_of_or_nand hor hnand).1
    · have hlt : j < i := Nat.lt_of_le_of_ne hge (Ne.symm hij)
      have hor := eval_or2
        (hall _ (mem_generated_of_tau (mem_tauTrans_pair_pos (tauIdx g) hj hi hlt)))
      have hnand := eval_nand2
        (hall _ (mem_generated_of_tau (mem_tauTrans_pair_neg (tauIdx g) hj hi hlt)))
      exact (bool_xor_of_or_nand hor hnand).2
  · intro i j k hi hj hk hij hjk hik h1 h2
    exact eval_imp3
      (hall _ (mem_generated_of_tau
        (mem_tauTrans_trans (tauIdx g) hi hj hk hij hjk hik))) h1 h2
  · intro p hp
    exact eval_unit (hall _ (mem_generated_of_upward (mem_upwardClauses (tauIdx g) hp)))

/-- Witness for C1: on the two-node graph with edge 0→1, the concrete
assignment `exM` satisfies the generated formula, and the theorem yields
that node 0 precedes node 1. -/
theorem tau_model_is_strict_total_order_witness :
    exM (tauIdx exG 0 1) = true :=
  (tau_model_is_strict_total_order exG exM (by decide)).2.2 (0, 1) (by decide)

/-! ### Claim C2 -/

/-- C2: when the external solver reports UNSAT, `testUpwardPlanarity`
returns the boolean `false` without raising an error, whereas a failure of
the solver engine is surfaced as the fatal `engineFailure` condition and is
never converted into a `false` return value. -/
theorem test_unsat_false_failure_fatal (s : UpSAT) (solver : SolverFn)
    (w : Bool) :
    (solver (buildAll s).m_F = SolverResult.unsat →
      (testUpwardPlanarityST s solver w).2 = Except.ok (false, none)) ∧
    (solver (buildAll s).m_F = SolverResult.failure →
      (testUpwardPlanarityST s solver w).2 =
        Except.error SolverError.engineFailure) := by
  constructor <;> intro h <;> simp [testUpwardPlanarityST, h]

/-- Witness for C2: a stub UNSAT solver yields the plain `false` answer and
a stub failing solver yields the fatal error, on the two-node instance. -/
theorem test_unsat_false_failure_fatal_witness :
    (testUpwardPlanarityST (mkUpSAT exG false) unsatSolver false).2 =
        Except.ok (false, none) ∧
    (testUpwardPlanarityST (mkUpSAT exG false) failSolver false).2 =
        Except.error SolverError.engineFailure :=
  ⟨(test_unsat_false_failure_fatal (mkUpSAT exG false) unsatSolver false).1 rfl,
   (test_unsat_false_failure_fatal (mkUpSAT exG false) failSolver false).2 rfl⟩

/-! ### Claim C3 -/

/-- C3: whenever `embedUpwardPlanar` fails (returns `false`), the
outer-face output equals its pre-call value `pre` — it is written only on
success. -/
theorem embed_failure_leaves_outer_unset (s : UpSAT) (solver : SolverFn)
    (adj0 : Nat → List Nat) (pre : Option Nat) (w : Bool)
    (out : Option Nat) (no : Option (Nat → Nat))
    (h : (embedUpwardPlanarST s solver adj0 pre w).2.2 =
      Except.ok (false, out, no)) :
    out = pre := by
  simp only [embedUpwardPlanarST] at h
  cases hsr : solver (buildAll s).m_F with
  | sat m =>
    rw [hsr] at h
    cases hcl : classifyEmbed (buildAll s).m_G with
    | fpss =>
      rw [hcl] at h
      simp only [FPSS, Except.ok.injEq, Prod.mk.injEq, true_and] at h
      exact h.1.symm
    | oe =>
      rw [hcl] at h
      simp only [OE] at h
      cases hh : (sortBySigma (buildAll s).m_G m (incid (buildAll s).m_G 0)).head? with
      | some a => rw [hh] at h; simp at h
      | none =>
        rw [hh] at h
        simp only [Except.ok.injEq, Prod.mk.injEq, true_and] at h
        exact h.1.symm
    | hl =>
      rw [hcl] at h
      simp only [HL, OE] at h
      cases hh : (sortBySigma (buildAll s).m_G m (incid (buildAll s).m_G 0)).head? with
      | some a => rw [hh] at h; simp at h
      | none =>
        rw [hh] at h
        simp only [Except.ok.injEq, Prod.mk.injEq, true_and] at h
        exact h.1.symm
  | unsat =>
    rw [hsr] at h
    simp only [Except.ok.injEq, Prod.mk.injEq, true_and] at h
    exact h.1.symm
  | failure =>
    rw [hsr] at h
    simp at h

/-- Witness for C3: an UNSAT run leaves a concrete pre-call outer-face
value untouched. -/
theorem embed_failure_leaves_outer_unset_witness :
    (some 5 : Option Nat) = some 5 :=
  embed_failure_leaves_outer_unset (mkUpSAT exG false) unsatSolver
    (fun _ => []) (some 5) false (some 5) none rfl

/-! ### Claim C4 -/

/-- C4 counterexample: the claim that every rule group strictly increases
the clause counter fails.  On the two-node, one-edge instance (after the
standard variable allocation and the first rule group), the
rotation-transitivity group has no pair of adjacency entries to constrain
and appends zero clauses, leaving the clause counter unchanged. -/
theorem rule_groups_strict_increase_counterexample :
    ¬ ((ruleTauTransitive (computeMuVariables (computeSigmaVariables
          (computeTauVariables (mkUpSAT exG false))))).numberOfClauses <
        (ruleSigmaTransitive (ruleTauTransitive (computeMuVariables
          (computeSigmaVariables (computeTauVariables
            (mkUpSAT exG false)))))).numberOfClauses) := by
  decide

/-- C4 (amended): for every test instance, the five clause groups are
generated in the fixed §4.3 sequence; each rule group only appends clauses
to the Formula and advances the clause counter by exactly the number of
clauses it appends — never removing or rewriting a previously emitted
clause — so the clause counter is monotonically non-decreasing across rule
invocations (it strictly increases exactly when the group has at least one
applicable node pair, adjacency pair or edge). -/
theorem rule_groups_append_only_fixed_sequence :
    (∀ (g : Digraph) (flag : Bool),
      (buildAll (mkUpSAT g flag)).m_F = generatedClauses g) ∧
    (∀ (s : UpSAT) (cs : List Clause),
      (appendClauses s cs).m_F = s.m_F ++ cs ∧
      (appendClauses s cs).numberOfClauses = s.numberOfClauses + cs.length ∧
      s.numberOfClauses ≤ (appendClauses s cs).numberOfClauses) ∧
    (∀ s : UpSAT,
      ruleTauTransitive s =
        appendClauses s
          (tauTransClausesWith s.m_G.n (fun i j => (s.tau (i, j)).getD 0)) ∧
      ruleSigmaTransitive s =
        appendClauses s
          (sigmaTransClausesWith s.m_G (fun a b => (s.sigma (a, b)).getD 0)) ∧
      ruleUpward s =
        appendClauses s
          (upwardClausesWith s.m_G (fun i j => (s.tau (i, j)).getD 0)) ∧
      rulePlanarity s =
        appendClauses s
          (planarityClausesWith s.m_G s.D (fun a b => (s.sigma (a, b)).getD 0)
            (fun e d => (s.mu (e, d)).getD 0)) ∧
      ruleTutte s =
        appendClauses s
          (tutteClausesWith s.m_G s.D (fun a b => (s.sigma (a, b)).getD 0))) ∧
    (∀ (s : UpSAT) (ord : Nat → Nat),
      ruleFixed s ord =
        appendClauses s
          (fixedClausesWith s.m_G.n (fun i j => (s.tau (i, j)).getD 0) ord)) ∧
    (∀ s : UpSAT, s.numberOfClauses ≤ (buildAll s).numberOfClauses) := by
  refine ⟨buildAll_mk_m_F, ?_, ?_, ?_, ?_⟩
  · intro s cs
    exact ⟨rfl, rfl, Nat.le_add_right _ _⟩
  · intro s
    exact ⟨rfl, rfl, rfl, rfl, rfl⟩
  · intro s ord
    exact rfl
  · intro s
    simp only [buildAll, ruleTauTransitive, ruleSigmaTransitive, ruleUpward,
      rulePlanarity, ruleTutte, computeTauVariables, computeSigmaVariables,
      computeMuVariables, appendClauses]
    omega

/-! ### Claim C5 -/

/-- C5: `reset` clears the Formula, the three variable maps and the two
counters, leaving the instance equal to a freshly constructed one except
for the retained Graph Index (`N`, `M`) and Dominating-Edge Table (`D`);
consequently a test re-run after `reset` (on an instance whose table is the
one built at construction) yields exactly the result and counters of a run
on a freshly constructed instance, independent of any prior Formula or
model state. -/
theorem reset_restores_fresh_instance (s : UpSAT) (solver : SolverFn)
    (w : Bool) (hD : s.D = fun e => domEdges s.m_G e) :
    UpSAT.reset s =
      { mkUpSAT s.m_G s.feasibleOriginalEdges with
          N := s.N, M := s.M, D := s.D } ∧
    (testUpwardPlanarityST (UpSAT.reset s) solver w).2 =
      (testUpwardPlanarityST (mkUpSAT s.m_G s.feasibleOriginalEdges) solver w).2 ∧
    (testUpwardPlanarityST (UpSAT.reset s) solver w).1.getNumberOfVariables =
      (testUpwardPlanarityST (mkUpSAT s.m_G s.feasibleOriginalEdges) solver
        w).1.getNumberOfVariables ∧
    (testUpwardPlanarityST (UpSAT.reset s) solver w).1.getNumberOfClauses =
      (testUpwardPlanarityST (mkUpSAT s.m_G s.feasibleOriginalEdges) solver
        w).1.getNumberOfClauses := by
  have hcore : (UpSAT.reset s).core =
      (mkUpSAT s.m_G s.feasibleOriginalEdges).core := by
    simp [UpSAT.core, UpSAT.reset, mkUpSAT, hD]
  have hb := core_buildAll hcore
  refine ⟨?_, testST_snd_of_core hcore solver w, ?_, ?_⟩
  · cases s
    rfl
  · rw [testST_fst, testST_fst]
    exact congrArg (fun c => c.2.1) hb
  · rw [testST_fst, testST_fst]
    exact congrArg (fun c => c.2.2.1) hb

/-- Witness for C5: after a full build on the two-node instance, `reset`
followed by a re-run gives the same observable result as a fresh run. -/
theorem reset_restores_fresh_instance_witness :
    (testUpwardPlanarityST (UpSAT.reset (buildAll (mkUpSAT exG false)))
        unsatSolver false).2 =
      (testUpwardPlanarityST (mkUpSAT exG false) unsatSolver false).2 :=
  (reset_restores_fresh_instance (buildAll (mkUpSAT exG false)) unsatSolver
    false rfl).2.1

/-! ### Claim C6 -/

/-- C6: the variable and clause counters after a test run are deterministic
functions of the input graph and the fixed rule-invocation order: two runs
on the same graph agree whatever the solver behaviour or the optional
node-order request, and the counters equal the canonical variable total and
the canonical generated-clause count. -/
theorem counters_deterministic (g : Digraph) (flag : Bool)
    (solver₁ solver₂ : SolverFn) (w₁ w₂ : Bool) :
    (testUpwardPlanarityST (mkUpSAT g flag) solver₁
        w₁).1.getNumberOfVariables =
      (testUpwardPlanarityST (mkUpSAT g flag) solver₂
        w₂).1.getNumberOfVariables ∧
    (testUpwardPlanarityST (mkUpSAT g flag) solver₁ w₁).1.getNumberOfClauses =
      (testUpwardPlanarityST (mkUpSAT g flag) solver₂
        w₂).1.getNumberOfClauses ∧
    (testUpwardPlanarityST (mkUpSAT g flag) solver₁
        w₁).1.getNumberOfVariables = totalVars g ∧
    (testUpwardPlanarityST (mkUpSAT g flag) solver₁ w₁).1.getNumberOfClauses =
      (generatedClauses g).length := by
  rw [UpSAT.getNumberOfVariables, UpSAT.getNumberOfClauses,
    UpSAT.getNumberOfVariables, UpSAT.getNumberOfClauses, testST_fst,
    testST_fst]
  exact ⟨buildAll_mk_vars g flag ▸ (buildAll_mk_vars g flag).symm ▸ rfl,
    rfl, buildAll_mk_vars g flag, buildAll_mk_clauses g flag⟩

/-! ### Claim C8 -/

/-- C8: the FastFeasibilityOnly strategy (`FPSS`) never produces a rotation
system: it may write the requested node order, but it always passes the
adjacency structure and the outer-face slot through unchanged; `HL` is the
delegation to `OE`'s rotation-sorting logic, and an embed call routed to
the `FPSS` branch leaves the graph's adjacency structure unchanged and
reports failure with the outer-face output untouched. -/
theorem FPSS_never_produces_rotation :
    (∀ (g : Digraph) (m : Nat → Bool) (w : Bool) (adj0 : Nat → List Nat)
        (pre : Option Nat),
      (FPSS g m w adj0 pre).2.1 = adj0 ∧
      (FPSS g m w adj0 pre).2.2.1 = pre ∧
      (FPSS g m true adj0 pre).2.2.2 = some (writeNodeOrder g m)) ∧
    (∀ (embed : Bool) (g : Digraph) (m : Nat → Bool) (w : Bool)
        (adj0 : Nat → List Nat) (pre : Option Nat),
      HL embed g m w adj0 pre = OE embed g m w adj0 pre) ∧
    (∀ (s : UpSAT) (solver : SolverFn) (adj0 : Nat → List Nat)
        (pre : Option Nat) (w : Bool),
      classifyEmbed s.m_G = Strategy.fpss →
      (embedUpwardPlanarST s solver adj0 pre w).2.1 = adj0 ∧
      ∀ b out no,
        (embedUpwardPlanarST s solver adj0 pre w).2.2 =
          Except.ok (b, out, no) → b = false ∧ out = pre) := by
  refine ⟨fun g m w adj0 pre => ⟨rfl, rfl, rfl⟩,
    fun embed g m w adj0 pre => rfl, ?_⟩
  intro s solver adj0 pre w hcl
  have hcl' : classifyEmbed (buildAll s).m_G = Strategy.fpss := hcl
  cases hsr : solver (buildAll s).m_F with
  | sat m =>
    constructor
    · simp [embedUpwardPlanarST, hsr, hcl', FPSS]
    · intro b out no h
      simp only [embedUpwardPlanarST] at h
      rw [hsr, hcl'] at h
      simp only [FPSS, Except.ok.injEq, Prod.mk.injEq] at h
      exact ⟨h.1.symm, h.2.1.symm⟩
  | unsat =>
    constructor
    · simp [embedUpwardPlanarST, hsr]
    · intro b out no h
      simp only [embedUpwardPlanarST] at h
      rw [hsr] at h
      simp only [Except.ok.injEq, Prod.mk.injEq] at h
      exact ⟨h.1.symm, h.2.1.symm⟩
  | failure =>
    constructor
    · simp [embedUpwardPlanarST, hsr]
    · intro b out no h
      simp only [embedUpwardPlanarST] at h
      rw [hsr] at h
      simp at h

/-- Witness for C8: an embed call on the trivial single-node instance is
routed to the FPSS branch and leaves the adjacency structure unchanged. -/
theorem FPSS_never_produces_rotation_witness :
    (embedUpwardPlanarST (mkUpSAT exTrivial false) satSolver (fun _ => [])
        none false).2.1 = (fun _ => ([] : List Nat)) :=
  ((FPSS_never_produces_rotation).2.2 (mkUpSAT exTrivial false) satSolver
    (fun _ => []) none false rfl).1

/-! ### Claim C9 -/

/-- C9: the `nodeOrder` parameter of both operations defaults to `nullptr`
(no node-order output); with no node-order output the operations still run
the full build/solve pipeline — the boolean answer is the same as with a
requested order — and no node order is ever written. -/
theorem default_node_order_is_null (s : UpSAT) (solver : SolverFn)
    (adj0 : Nat → List Nat) (pre : Option Nat) :
    testUpwardPlanarityDefault s solver = testUpwardPlanarityST s solver false ∧
    embedUpwardPlanarDefault s solver adj0 pre =
      embedUpwardPlanarST s solver adj0 pre false ∧
    (∀ w, Except.map Prod.fst (testUpwardPlanarityST s solver w).2 =
      Except.map Prod.fst (testUpwardPlanarityST s solver false).2) ∧
    (∀ b o, (testUpwardPlanarityDefault s solver).2 = Except.ok (b, o) →
      o = none) ∧
    (∀ b out no,
      (embedUpwardPlanarDefault s solver adj0 pre).2.2 =
        Except.ok (b, out, no) → no = none) := by
  refine ⟨rfl, rfl, ?_, ?_, ?_⟩
  · intro w
    cases hsr : solver (buildAll s).m_F <;>
      simp [testUpwardPlanarityST, hsr, FPSS, Except.map]
  · intro b o h
    simp only [testUpwardPlanarityDefault, testUpwardPlanarityST] at h
    cases hsr : solver (buildAll s).m_F with
    | sat m =>
      rw [hsr] at h
      simp only [FPSS, Bool.false_eq_true, if_false, Except.ok.injEq,
        Prod.mk.injEq] at h
      exact h.2.symm
    | unsat =>
      rw [hsr] at h
      simp only [Except.ok.injEq, Prod.mk.injEq] at h
      exact h.2.symm
    | failure =>
      rw [hsr] at h
      simp at h
  · intro b out no h
    simp only [embedUpwardPlanarDefault, embedUpwardPlanarST] at h
    cases hsr : solver (buildAll s).m_F with
    | sat m =>
      rw [hsr] at h
      cases hcl : classifyEmbed (buildAll s).m_G with
      | fpss =>
        rw [hcl] at h
        simp only [FPSS, Bool.false_eq_true, if_false, Except.ok.injEq,
          Prod.mk.injEq] at h
        exact h.2.2.symm
      | oe =>
        rw [hcl] at h
        simp only [OE] at h
        cases hh : (sortBySigma (buildAll s).m_G m
            (incid (buildAll s).m_G 0)).head? with
        | some a =>
          rw [hh] at h
          simp only [Bool.false_eq_true, if_false, Except.ok.injEq,
            Prod.mk.injEq] at h
          exact h.2.2.symm
        | none =>
          rw [hh] at h
          simp only [Bool.false_eq_true, if_false, Except.ok.injEq,
            Prod.mk.injEq] at h
          exact h.2.2.symm
      | hl =>
        rw [hcl] at h
        simp only [HL, OE] at h
        cases hh : (sortBySigma (buildAll s).m_G m
            (incid (buildAll s).m_G 0)).head? with
        | some a =>
          rw [hh] at h
          simp only [Bool.false_eq_true, if_false, Except.ok.injEq,
            Prod.mk.injEq] at h
          exact h.2.2.symm
        | none =>
          rw [hh] at h
          simp only [Bool.false_eq_true, if_false, Except.ok.injEq,
            Prod.mk.injEq] at h
          exact h.2.2.symm
    | unsat =>
      rw [hsr] at h
      simp only [Except.ok.injEq, Prod.mk.injEq] at h
      exact h.2.2.symm
    | failure =>
      rw [hsr] at h
      simp at h

/-- Witness for C9: with the defaulted null node-order output, an UNSAT run
writes no node order. -/
theorem default_node_order_is_null_witness :
    (none : Option (Nat → Nat)) = none :=
  (default_node_order_is_null (mkUpSAT exG false) unsatSolver (fun _ => [])
    none).2.2.2.1 false none rfl

/-! ### Claim C7: helper lemmas on referenced variables -/

theorem mem_sigmaKeys_of_incid {g : Digraph} {a b v : Nat}
    (ha : a ∈ incid g v) (hb : b ∈ incid g v) (hab : a ≠ b) :
    (a, b) ∈ sigmaKeys g := by
  obtain ⟨ha1, ha2⟩ := mem_incid.mp ha
  obtain ⟨hb1, hb2⟩ := mem_incid.mp hb
  exact mem_sigmaKeys.mpr
    ⟨ha1, hb1, Ne.symm hab, sharesNodeB_of_incident ha2 hb2⟩

theorem mem_sigmaKeys_of_muKey {g : Digraph} {e d : Nat}
    (h : (e, d) ∈ muKeys g) :
    (e, d) ∈ sigmaKeys g ∧ (d, e) ∈ sigmaKeys g := by
  obtain ⟨he, hd⟩ := mem_muKeysOf.mp h
  obtain ⟨hd1, hd2, hd3⟩ := mem_domEdges.mp hd
  exact ⟨mem_sigmaKeys.mpr ⟨he, hd1, hd2, hd3⟩,
    mem_sigmaKeys.mpr ⟨hd1, he, Ne.symm hd2, sharesNodeB_symm hd3⟩⟩

theorem tauTrans_vars_allocated {g : Digraph} {c : Clause} {l : Lit}
    (hc : c ∈ tauTransClausesWith g.n (tauIdx g)) (hl : l ∈ c) :
    ∃ p, tauVar g p = some l.var := by
  rcases List.mem_append.mp hc with h | h
  · obtain ⟨i, hi, h⟩ := List.mem_flatMap.mp h
    obtain ⟨j, hj, h⟩ := List.mem_flatMap.mp h
    obtain ⟨k, hk, h⟩ := List.mem_flatMap.mp h
    rw [List.mem_range] at hi hj hk
    split at h
    · rename_i hcond
      rw [List.mem_singleton] at h
      subst h
      simp only [List.mem_cons, List.not_mem_nil, or_false] at hl
      rcases hl with rfl | rfl | rfl
      · exact ⟨(i, j), tauVar_eq_some (mem_tauKeys.mpr ⟨hi, hj, Ne.symm hcond.1⟩)⟩
      · exact ⟨(j, k), tauVar_eq_some (mem_tauKeys.mpr ⟨hj, hk, Ne.symm hcond.2.1⟩)⟩
      · exact ⟨(i, k), tauVar_eq_some (mem_tauKeys.mpr ⟨hi, hk, Ne.symm hcond.2.2⟩)⟩
    · simp at h
  · obtain ⟨i, hi, h⟩ := List.mem_flatMap.mp h
    obtain ⟨j, hj, h⟩ := List.mem_flatMap.mp h
    rw [List.mem_range] at hi
    obtain ⟨hj1, hj2⟩ := List.mem_filter.mp hj
    rw [List.mem_range] at hj1
    have hlt : i < j := of_decide_eq_true hj2
    simp only [List.mem_cons, List.not_mem_nil, or_false] at h
    rcases h with rfl | rfl <;>
      simp only [List.mem_cons, List.not_mem_nil, or_false] at hl <;>
      rcases hl with rfl | rfl
    · exact ⟨(i, j), tauVar_eq_some
        (mem_tauKeys.mpr ⟨hi, hj1, (Nat.ne_of_lt hlt).symm⟩)⟩
    · exact ⟨(j, i), tauVar_eq_some
        (mem_tauKeys.mpr ⟨hj1, hi, Nat.ne_of_lt hlt⟩)⟩
    · exact ⟨(i, j), tauVar_eq_some
        (mem_tauKeys.mpr ⟨hi, hj1, (Nat.ne_of_lt hlt).symm⟩)⟩
    · exact ⟨(j, i), tauVar_eq_some
        (mem_tauKeys.mpr ⟨hj1, hi, Nat.ne_of_lt hlt⟩)⟩

theorem sigmaTrans_vars_allocated {g : Digraph} {c : Clause} {l : Lit}
    (hc : c ∈ sigmaTransClausesWith g (sigmaIdx g)) (hl : l ∈ c) :
    ∃ p, sigmaVar g p = some l.var := by
  obtain ⟨v, hv, h⟩ := List.mem_flatMap.mp hc
  rcases List.mem_append.mp h with h | h
  · obtain ⟨a, ha, h⟩ := List.mem_flatMap.mp h
    obtain ⟨b, hb, h⟩ := List.mem_flatMap.mp h
    obtain ⟨d, hd, h⟩ := List.mem_flatMap.mp h
    split at h
    · rename_i hcond
      rw [List.mem_singleton] at h
      subst h
      simp only [List.mem_cons, List.not_mem_nil, or_false] at hl
      rcases hl with rfl | rfl | rfl
      · exact ⟨(a, b), sigmaVar_eq_some (mem_sigmaKeys_of_incid ha hb hcond.1)⟩
      · exact ⟨(b, d), sigmaVar_eq_some (mem_sigmaKeys_of_incid hb hd hcond.2.1)⟩
      · exact ⟨(a, d), sigmaVar_eq_some (mem_sigmaKeys_of_incid ha hd hcond.2.2)⟩
    · simp at h
  · obtain ⟨a, ha, h⟩ := List.mem_flatMap.mp h
    obtain ⟨b, hb, h⟩ := List.mem_flatMap.mp h
    obtain ⟨hb1, hb2⟩ := List.mem_filter.mp hb
    have hlt : a < b := of_decide_eq_true hb2
    simp only [List.mem_cons, List.not_mem_nil, or_false] at h
    rcases h with rfl | rfl <;>
      simp only [List.mem_cons, List.not_mem_nil, or_false] at hl <;>
      rcases hl with rfl | rfl
    · exact ⟨(a, b), sigmaVar_eq_some
        (mem_sigmaKeys_of_incid ha hb1 (Nat.ne_of_lt hlt))⟩
    · exact ⟨(b, a), sigmaVar_eq_some
        (mem_sigmaKeys_of_incid hb1 ha (Nat.ne_of_lt hlt).symm)⟩
    · exact ⟨(a, b), sigmaVar_eq_some
        (mem_sigmaKeys_of_incid ha hb1 (Nat.ne_of_lt hlt))⟩
    · exact ⟨(b, a), sigmaVar_eq_some
        (mem_sigmaKeys_of_incid hb1 ha (Nat.ne_of_lt hlt).symm)⟩

theorem upward_vars_allocated {g : Digraph} (hg : g.Valid) {c : Clause}
    {l : Lit} (hc : c ∈ upwardClausesWith g (tauIdx g)) (hl : l ∈ c) :
    ∃ p, tauVar g p = some l.var := by
  obtain ⟨p, hp, hceq⟩ := List.mem_map.mp hc
  subst hceq
  rw [List.mem_singleton] at hl
  subst hl
  obtain ⟨h1, h2, h3⟩ := hg p hp
  exact ⟨(p.1, p.2), tauVar_eq_some (mem_tauKeys.mpr ⟨h1, h2, Ne.symm h3⟩)⟩

theorem planarity_vars_allocated {g : Digraph} {c : Clause} {l : Lit}
    (hc : c ∈ planarityClausesWith g (domEdges g) (sigmaIdx g) (muIdx g))
    (hl : l ∈ c) :
    ∃ p, sigmaVar g p = some l.var ∨ muVar g p = some l.var := by
  obtain ⟨p, hp, h⟩ := List.mem_flatMap.mp hc
  have hmu : (p.1, p.2) ∈ muKeys g := hp
  have hsig := mem_sigmaKeys_of_muKey hmu
  simp only [List.mem_cons, List.not_mem_nil, or_false] at h
  rcases h with rfl | rfl <;>
    simp only [List.mem_cons, List.not_mem_nil, or_false] at hl <;>
    rcases hl with rfl | rfl
  · exact ⟨(p.1, p.2), Or.inr (muVar_eq_some hmu)⟩
  · exact ⟨(p.1, p.2), Or.inl (sigmaVar_eq_some hsig.1)⟩
  · exact ⟨(p.1, p.2), Or.inr (muVar_eq_some hmu)⟩
  · exact ⟨(p.2, p.1), Or.inl (sigmaVar_eq_some hsig.2)⟩

theorem tutte_vars_allocated {g : Digraph} {c : Clause} {l : Lit}
    (hc : c ∈ tutteClausesWith g (domEdges g) (sigmaIdx g)) (hl : l ∈ c) :
    ∃ p, sigmaVar g p = some l.var := by
  obtain ⟨p, hp, hceq⟩ := List.mem_map.mp hc
  subst hceq
  have hmu : (p.1, p.2) ∈ muKeys g := hp
  have hsig := mem_sigmaKeys_of_muKey hmu
  simp only [List.mem_cons, List.not_mem_nil, or_false] at hl
  rcases hl with rfl | rfl
  · exact ⟨(p.1, p.2), sigmaVar_eq_some hsig.1⟩
  · exact ⟨(p.2, p.1), sigmaVar_eq_some hsig.2⟩

/-! ### Claim C7 -/

/-- C7: variable allocation is idempotent and total within one test — the
variable maps built by the allocation phase are stable through clause
generation (so repeated lookups of a pair return the same id); each
(family, i, j) pair maps to exactly one id and no id is reused within or
across families; the three families occupy consecutive monotonically
allocated id ranges; every key pair has an allocated id; and every variable
the rule engine references in the generated formula is allocated. -/
theorem variable_allocation_contract (g : Digraph) (hg : g.Valid) :
    ((buildAll (mkUpSAT g false)).tau = fun p => tauVar g p) ∧
    ((buildAll (mkUpSAT g false)).sigma = fun p => sigmaVar g p) ∧
    ((buildAll (mkUpSAT g false)).mu = fun p => muVar g p) ∧
    (∀ p q a, (tauVar g p = some a → tauVar g q = some a → p = q) ∧
      (sigmaVar g p = some a → sigmaVar g q = some a → p = q) ∧
      (muVar g p = some a → muVar g q = some a → p = q) ∧
      (tauVar g p = some a → sigmaVar g q ≠ some a) ∧
      (tauVar g p = some a → muVar g q ≠ some a) ∧
      (sigmaVar g p = some a → muVar g q ≠ some a)) ∧
    (∀ p a, (tauVar g p = some a → a < sigmaStart g) ∧
      (sigmaVar g p = some a → sigmaStart g ≤ a ∧ a < muStart g) ∧
      (muVar g p = some a → muStart g ≤ a ∧ a < totalVars g)) ∧
    (∀ p, p ∈ tauKeys g.n → (tauVar g p).isSome = true) ∧
    (∀ p, p ∈ sigmaKeys g → (sigmaVar g p).isSome = true) ∧
    (∀ p, p ∈ muKeys g → (muVar g p).isSome = true) ∧
    (∀ c ∈ formulaOf g, ∀ l ∈ c,
      ∃ p, tauVar g p = some l.var ∨ sigmaVar g p = some l.var ∨
        muVar g p = some l.var) := by
  have hzero : ∀ p a, tauVar g p = some a → a < sigmaStart g := by
    intro p a hp
    have := assignIds_lt hp
    simpa [sigmaStart] using this
  have hsigrange : ∀ p a, sigmaVar g p = some a →
      sigmaStart g ≤ a ∧ a < muStart g := by
    intro p a hp
    exact ⟨assignIds_ge hp, assignIds_lt hp⟩
  have hmurange : ∀ p a, muVar g p = some a →
      muStart g ≤ a ∧ a < totalVars g := by
    intro p a hp
    exact ⟨assignIds_ge hp, assignIds_lt hp⟩
  refine ⟨rfl, ?_, ?_, ?_, ?_, ?_, ?_, ?_, ?_⟩
  · funext p
    show assignIds (sigmaKeys g) (0 + (tauKeys g.n).length) p = sigmaVar g p
    rw [Nat.zero_add]
    rfl
  · funext p
    show assignIds (muKeysOf g (fun e => domEdges g e))
      (0 + (tauKeys g.n).length + (sigmaKeys g).length) p = muVar g p
    rw [Nat.zero_add]
    rfl
  · intro p q a
    refine ⟨?_, ?_, ?_, ?_, ?_, ?_⟩
    · intro hp hq
      by_contra hne
      exact assignIds_inj hne hp hq rfl
    · intro hp hq
      by_contra hne
      exact assignIds_inj hne hp hq rfl
    · intro hp hq
      by_contra hne
      exact assignIds_inj hne hp hq rfl
    · intro hp hq
      have h1 := hzero p a hp
      have h2 := (hsigrange q a hq).1
      omega
    · intro hp hq
      have h1 := hzero p a hp
      have h2 := (hmurange q a hq).1
      have h3 : sigmaStart g ≤ muStart g := Nat.le_add_right _ _
      omega
    · intro hp hq
      have h1 := (hsigrange p a hp).2
      have h2 := (hmurange q a hq).1
      omega
  · intro p a
    exact ⟨hzero p a, hsigrange p a, hmurange p a⟩
  · intro p hp
    exact assignIds_isSome_of_mem hp
  · intro p hp
    exact assignIds_isSome_of_mem hp
  · intro p hp
    exact assignIds_isSome_of_mem hp
  · intro c hc l hl
    rw [formulaOf_eq] at hc
    unfold generatedClauses at hc
    simp only [List.mem_append] at hc
    rcases hc with (((h | h) | h) | h) | h
    · obtain ⟨p, hp⟩ := tauTrans_vars_allocated h hl
      exact ⟨p, Or.inl hp⟩
    · obtain ⟨p, hp⟩ := sigmaTrans_vars_allocated h hl
      exact ⟨p, Or.inr (Or.inl hp)⟩
    · obtain ⟨p, hp⟩ := upward_vars_allocated hg h hl
      exact ⟨p, Or.inl hp⟩
    · obtain ⟨p, hp⟩ := planarity_vars_allocated h hl
      rcases hp with hp | hp
      · exact ⟨p, Or.inr (Or.inl hp)⟩
      · exact ⟨p, Or.inr (Or.inr hp)⟩
    · obtain ⟨p, hp⟩ := tutte_vars_allocated h hl
      exact ⟨p, Or.inr (Or.inl hp)⟩

/-- Witness for C7: on the two-node instance the allocation maps of the
fully built state agree with the canonical allocation. -/
theorem variable_allocation_contract_witness :
    (buildAll (mkUpSAT exG false)).tau = fun p => tauVar exG p :=
  (variable_allocation_contract exG (by decide)).1

/-! ### Claim C10 -/

/-- The order-variable family is quadratic in the node count. -/
theorem length_tauKeys (n : Nat) : (tauKeys n).length = n * (n - 1) := by
  rw [tauKeys, List.length_flatMap]
  have hone : ∀ i ∈ List.range n,
      (List.length ∘ fun i =>
        ((List.range n).filter (fun j => j != i)).map (fun j => (i, j))) i
        = n - 1 := by
    intro i hi
    simp only [Function.comp_apply, List.length_map]
    rw [← List.Nodup.erase_eq_filter (List.nodup_range n) i,
      List.length_erase_of_mem hi, List.length_range]
  calc (List.map (List.length ∘ fun i =>
          ((List.range n).filter (fun j => j != i)).map (fun j => (i, j)))
        (List.range n)).sum
      = (List.map (fun _ => n - 1) (List.range n)).sum := by
        rw [List.map_congr_left hone]
    _ = (List.replicate (List.range n).length (n - 1)).sum := by
        rw [show (fun _ : Nat => n - 1) = Function.const Nat (n - 1) from rfl,
          List.map_const]
    _ = n * (n - 1) := by
        rw [List.length_range, List.sum_replicate]
        rfl

/-- C10: the clause counter is held and returned as a 64-bit signed value
(`long long numberOfClauses` / `getNumberOfClauses`), while the variable
counter is a 32-bit `int`: every value in `int` range lies in `long long`
range, and counts at and above `2^31` are representable by the clause
counter's type but not by the variable counter's type — while the variable
family itself grows only quadratically (`n * (n - 1)` order variables). -/
theorem counter_type_asymmetry :
    (∀ x : Int, variableCounterInRange x → clauseCounterInRange x) ∧
    clauseCounterInRange (2 ^ 31) ∧
    ¬ variableCounterInRange (2 ^ 31) ∧
    (∀ n : Nat, (tauKeys n).length = n * (n - 1)) := by
  refine ⟨?_, ?_, ?_, length_tauKeys⟩
  · intro x hx
    unfold variableCounterInRange at hx
    unfold clauseCounterInRange
    norm_num at hx ⊢
    omega
  · unfold clauseCounterInRange
    norm_num
  · intro h
    exact absurd h.2 (lt_irrefl _)

/-- Witness for C10: the value 0 is in `int` range, hence in `long long`
range. -/
theorem counter_type_asymmetry_witness : clauseCounterInRange 0 :=
  counter_type_asymmetry.1 0 ⟨by decide, by decide⟩

end UpSATModel
